import Mathlib

/-!
Verification development for the JDA joint-cascade face detector
(`include/jda/cascador.hpp`).  The repository ships only the orchestrator's
header: the class declarations, field layout and documentation comments of
`JoinCascador` and `DetectionStatisic`.  The bodies of `Train`, `Resume`,
`SerializeTo`, `SerializeFrom`, `Validate` and `Detect` are not in the tree,
so those operations are modelled here from the specification's description of
the orchestration core, while the data layout (configuration fields `T`, `K`,
`landmark_n`, `tree_depth`, the `mean_shape`, the training cursor
`current_stage_idx`/`current_cart_idx`, and the `DetectionStatisic` record
with its constructor) is taken from the header itself.

Doubles are modelled as rationals, matrices of doubles as integer lists, and
the byte stream of the persistence layer as a list of integers (one machine
word per entry).  The opaque weak-stage unit ("cart") and the sample store
are external collaborators in the design; their behaviour enters the model as
explicit oracle parameters, while their learned parameters are opaque word
blocks whose sizes are fixed by the configuration.
-/

namespace JDA

/-- Fixed configuration of a cascade, set once at construction:
stage count `T`, carts per stage `K`, landmark count and cart tree depth
(fields `T`, `K`, `landmark_n`, `tree_depth` of `JoinCascador`). -/
structure Config where
  T : Nat
  K : Nat
  landmark_n : Nat
  tree_depth : Nat
deriving DecidableEq, Repr

/-- Modelled from the spec: the learned parameters of one weak-stage unit
("cart") are opaque to the orchestrator; a unit is a block of words whose
size is determined by the configuration's tree depth. -/
structure UnitRecord where
  content : List Int
deriving DecidableEq, Repr

/-- Modelled from the spec: one sealed stage is a fixed-size ensemble of
units sharing one rejection threshold, followed by one global
shape-regression step. -/
structure StageRecord where
  units : List UnitRecord
  threshold : Int
  globalReg : List Int
deriving DecidableEq, Repr

/-- Cascade model state: the configuration, the mean shape (a row of
`2 * landmark_n` coordinates), the sealed stages, the in-progress stage's
trained-so-far units, and the training cursor
(`current_stage_idx`, `current_cart_idx`).  Field layout from
`JoinCascador` in `cascador.hpp`; the sealed-stage list and in-progress
unit list are modelled from the spec's data model (the header keeps both
inside the opaque `btcarts` vector). -/
structure JoinCascador where
  T : Nat
  K : Nat
  landmark_n : Nat
  tree_depth : Nat
  mean_shape : List Int
  stages : List StageRecord
  pendingUnits : List UnitRecord
  current_stage_idx : Nat
  current_cart_idx : Int
deriving DecidableEq, Repr

/-- The configuration part of a model state. -/
def configOf (m : JoinCascador) : Config :=
  ⟨m.T, m.K, m.landmark_n, m.tree_depth⟩

/-- Number of words in one serialized unit record, fixed by the
configuration's tree depth (one word per leaf of the cart tree). -/
def unitLen (c : Config) : Nat := 2 ^ c.tree_depth

/-- Well-formedness of a unit record with respect to a configuration. -/
def UnitWF (c : Config) (u : UnitRecord) : Prop :=
  u.content.length = unitLen c

/-- Well-formedness of a sealed stage record with respect to a
configuration: `K` units of the right size, and a global regression block
of `2 * landmark_n` words. -/
def StageWF (c : Config) (st : StageRecord) : Prop :=
  st.units.length = c.K ∧ (∀ u ∈ st.units, UnitWF c u) ∧
    st.globalReg.length = 2 * c.landmark_n

/-- Well-formedness of a model state: the mean shape has `2 * landmark_n`
entries, the sealed-stage list has exactly `current_stage_idx` entries, all
records are sized by the configuration, the cart cursor lies in
`[-1, K-1]`, the stage cursor in `[0, T]`, the in-progress stage holds
exactly `current_cart_idx + 1` trained units, and a complete model has no
in-progress stage. -/
def ModelWF (m : JoinCascador) : Prop :=
  m.mean_shape.length = 2 * m.landmark_n ∧
  m.stages.length = m.current_stage_idx ∧
  (∀ st ∈ m.stages, StageWF (configOf m) st) ∧
  (∀ u ∈ m.pendingUnits, UnitWF (configOf m) u) ∧
  (-1 ≤ m.current_cart_idx) ∧
  (m.current_cart_idx < (m.K : Int)) ∧
  m.current_stage_idx ≤ m.T ∧
  m.pendingUnits.length = (m.current_cart_idx + 1).toNat ∧
  (m.current_stage_idx = m.T → m.current_cart_idx = -1)

instance (c : Config) (u : UnitRecord) : Decidable (UnitWF c u) := by
  unfold UnitWF; infer_instance

instance (c : Config) (st : StageRecord) : Decidable (StageWF c st) := by
  unfold StageWF; infer_instance

instance (m : JoinCascador) : Decidable (ModelWF m) := by
  unfold ModelWF; infer_instance

/-! ## Persistence layer: serialization (`SerializeTo`)

Modelled from the spec: fixed-order binary encoding of the configuration,
then `mean_shape`, then the training cursor, then one record per sealed
stage in training order, followed by the in-progress stage's trained units
when `current_cart_idx ≥ 0`. -/

/-- Encoding of one sealed stage record: a declared `(landmark_n,
tree_depth)` pair, the unit blocks, the stage threshold, the global
shape-regression block. -/
def serializeStage (st : StageRecord) (c : Config) : List Int :=
  (c.landmark_n : Int) :: (c.tree_depth : Int) ::
    ((st.units.map UnitRecord.content).flatten ++
      st.threshold :: st.globalReg)

/-- Modelled from the spec: `SerializeTo` writes the configuration header,
the mean shape, the training cursor, every sealed stage's record, and the
in-progress units when the cart cursor is at least 0. -/
def SerializeTo (m : JoinCascador) : List Int :=
  (m.T : Int) :: (m.K : Int) :: (m.landmark_n : Int) :: (m.tree_depth : Int) ::
    (m.mean_shape ++
      (m.current_stage_idx : Int) :: m.current_cart_idx ::
        ((m.stages.map (fun st => serializeStage st (configOf m))).flatten ++
          (if 0 ≤ m.current_cart_idx then
            (m.pendingUnits.map UnitRecord.content).flatten
          else [])))

/-! ## Persistence layer: deserialization (`SerializeFrom`)

A small consuming-reader model of `fread` on a word stream: each reader
takes the stream, and either fails (truncation or a format check) or
returns a value together with the unconsumed suffix. -/

/-- A reader over the word stream: either fail, or produce a value and the
unconsumed rest of the stream. -/
def Reader (α : Type) : Type := List Int → Option (α × List Int)

/-- Reader producing a fixed value without consuming input. -/
def rPure {α : Type} (a : α) : Reader α := fun s => some (a, s)

/-- Failing reader (format error). -/
def rFail {α : Type} : Reader α := fun _ => none

/-- Sequencing of readers. -/
def rBind {α β : Type} (p : Reader α) (f : α → Reader β) : Reader β :=
  fun s =>
    match p s with
    | none => none
    | some (a, s') => f a s'

/-- Read one word; fails on an exhausted stream. -/
def read1 : Reader Int := fun s =>
  match s with
  | [] => none
  | x :: t => some (x, t)

/-- Read `n` words; fails when fewer remain. -/
def readN (n : Nat) : Reader (List Int) := fun s =>
  if n ≤ s.length then some (s.take n, s.drop n) else none

/-- Format check: succeed without consuming exactly when the condition
holds. -/
def rCheck (p : Prop) [Decidable p] : Reader Unit :=
  fun s => if p then some ((), s) else none

/-- Read one unit record (a block of `unitLen c` words). -/
def readUnit (c : Config) : Reader UnitRecord :=
  rBind (readN (unitLen c)) fun l => rPure ⟨l⟩

/-- Read `n` successive values with the same reader. -/
def readRepeat {α : Type} (p : Reader α) : Nat → Reader (List α)
  | 0 => rPure []
  | n + 1 =>
      rBind p fun a =>
        rBind (readRepeat p n) fun as =>
          rPure (a :: as)

/-- Read one sealed stage record, checking the declared
`(landmark_n, tree_depth)` pair against the header's configuration. -/
def readStage (c : Config) : Reader StageRecord :=
  rBind read1 fun l =>
    rBind read1 fun d =>
      rBind (rCheck (l = (c.landmark_n : Int) ∧ d = (c.tree_depth : Int))) fun _ =>
        rBind (readRepeat (readUnit c) c.K) fun us =>
          rBind read1 fun th =>
            rBind (readN (2 * c.landmark_n)) fun gr =>
              rPure ⟨us, th, gr⟩

/-- Read a whole model state: configuration header (word values must be
nonnegative), mean shape, training cursor, `current_stage_idx` sealed
stage records, then, when the cart cursor is at least 0, the in-progress
stage's `current_cart_idx + 1` unit records. -/
def readModel : Reader JoinCascador :=
  rBind read1 fun t =>
    rBind read1 fun k =>
      rBind read1 fun l =>
        rBind read1 fun d =>
          rBind (rCheck (0 ≤ t ∧ 0 ≤ k ∧ 0 ≤ l ∧ 0 ≤ d)) fun _ =>
            rBind (readN (2 * l.toNat)) fun ms =>
              rBind read1 fun si =>
                rBind read1 fun ci =>
                  rBind (rCheck (0 ≤ si)) fun _ =>
                    rBind (readRepeat (readStage ⟨t.toNat, k.toNat, l.toNat, d.toNat⟩) si.toNat) fun sts =>
                      rBind (if 0 ≤ ci then
                               readRepeat (readUnit ⟨t.toNat, k.toNat, l.toNat, d.toNat⟩) (ci + 1).toNat
                             else rPure []) fun pus =>
                        rPure ⟨t.toNat, k.toNat, l.toNat, d.toNat, ms, sts, pus, si.toNat, ci⟩

/-- Modelled from the spec: `SerializeFrom` is the exact inverse of
`SerializeTo`; it fails with a format error on truncation or on an internal
record contradicting the header, and on failure yields no model state. -/
def SerializeFrom (s : List Int) : Option JoinCascador :=
  match readModel s with
  | some (m, []) => some m
  | _ => none

/-- Modelled from the spec: a failed deserialization leaves the in-memory
model exactly as it was before the call (no partial mutation survives). -/
def serializeFromState (m : JoinCascador) (s : List Int) : JoinCascador :=
  (SerializeFrom s).getD m

/-- Modelled from the spec: `Resume` deserializes a checkpoint, then
validates the loaded fixed configuration against the active one and fails
fatally on a mismatch. -/
def Resume (m : JoinCascador) (s : List Int) : Option JoinCascador :=
  match SerializeFrom s with
  | none => none
  | some m' => if configOf m' = configOf m then some m' else none

/-- Modelled from the spec: the model state after an attempted `Resume`; a
fatal failure leaves the state unchanged. -/
def resumeState (m : JoinCascador) (s : List Int) : JoinCascador :=
  (Resume m s).getD m

/-! ## Cascade evaluator (`Validate`)

The weak-stage unit is an external collaborator: given a candidate patch and
the running shape estimate it yields an incremental classification score and
an updated shape.  Its behaviour enters the model as an oracle indexed by the
unit's learned parameters. -/

/-- Contract of the external weak-stage unit: evaluating one unit on a patch
with the running shape yields a score increment and the updated shape;
evaluating the stage's global shape regression updates the shape. -/
structure CartOracle (Patch : Type) where
  evalUnit : UnitRecord → Patch → List Int → Int × List Int
  evalGlobal : List Int → Patch → List Int → List Int

/-- Run a block of units in index order, accumulating the score and
replacing the shape after each unit. -/
def runUnits {P : Type} (o : CartOracle P) (p : P) :
    List UnitRecord → Int × List Int → Int × List Int
  | [], acc => acc
  | u :: us, acc =>
      let r := o.evalUnit u p acc.2
      runUnits o p us (acc.1 + r.1, r.2)

/-- Result of one `Validate` call: acceptance flag, accumulated score, final
shape estimate, and the number reported for the carts traversed. -/
structure ValidateResult where
  accepted : Bool
  score : Int
  shape : List Int
  n : Nat
deriving DecidableEq, Repr

/-- Modelled from the spec: run the patch through a list of stages carrying
the accumulated score, shape and units-traversed count.  After each stage's
units and global shape regression, the accumulated score is compared with
the stage's rejection threshold: below means immediate rejection with `n`
set to the rejecting unit's index; otherwise evaluation continues with the
next stage.  If every stage passes, `n` is the total number of units
evaluated. -/
def validateStages {P : Type} (o : CartOracle P) (p : P) :
    List StageRecord → Int → List Int → Nat → ValidateResult
  | [], score, shape, n => ⟨true, score, shape, n⟩
  | st :: rest, score, shape, n =>
      let r := runUnits o p st.units (score, shape)
      let shape' := o.evalGlobal st.globalReg p r.2
      if r.1 < st.threshold then
        ⟨false, r.1, shape', n + st.units.length - 1⟩
      else
        validateStages o p rest r.1 shape' (n + st.units.length)

/-- Modelled from the spec: `Validate` in its two modes.  With a complete
cursor the full cascade of sealed stages runs (inference mode); otherwise
the sealed stages run followed by the in-progress stage's trained-so-far
units, which carry no rejection threshold yet (training mode, the partial
cascade used for hard-negative mining).  The shape starts from
`mean_shape`. -/
def Validate {P : Type} (m : JoinCascador) (o : CartOracle P) (p : P) :
    ValidateResult :=
  let r := validateStages o p m.stages 0 m.mean_shape 0
  if m.current_stage_idx = m.T then r
  else if r.accepted then
    let r2 := runUnits o p m.pendingUnits (r.score, r.shape)
    ⟨true, r2.1, r2.2, r.n + m.pendingUnits.length⟩
  else r

/-! ## Training orchestrator (`Train`)

Training of a single unit, hard-negative mining and the stage's global
shape regression are external collaborators (the opaque cart learner and
the sample store); they enter the model as an oracle.  The orchestrator's
own contribution — the strict stage-by-stage, unit-by-unit order and the
cursor discipline — is modelled exactly. -/

/-- External sample store (`DataSet` in the header): contents opaque to the
orchestrator. -/
structure DataSet where
  samples : List Int
deriving DecidableEq, Repr

/-- Contract of the external training collaborators: `trainUnit` trains one
boosting step returning the new unit and the updated stores, `mine`
rebuilds the negative pool by hard-negative mining against the current
partial cascade, and `trainGlobal` trains the stage's global shape
regression returning the stage threshold and regression block. -/
structure TrainOracle where
  trainUnit : JoinCascador → DataSet → DataSet → UnitRecord × DataSet × DataSet
  mine : JoinCascador → DataSet → DataSet → DataSet
  trainGlobal : JoinCascador → DataSet → DataSet → (Int × List Int) × DataSet × DataSet

/-- State of one training run: the model together with the borrowed
positive and negative sample stores. -/
structure TrainState where
  model : JoinCascador
  pos : DataSet
  neg : DataSet

/-- Modelled from the spec: one step of the training loop.  A complete
model is left untouched.  When the current stage still has untrained units
(`current_cart_idx + 1 < K`), the next unit is trained, the cart cursor
advances, and hard-negative mining rebuilds the negative pool.  Otherwise
all `K` units of the stage are trained: the stage's global shape
regression is trained, the stage is sealed into `stages`, and the cursor
advances to `(current_stage_idx + 1, -1)`. -/
def trainStep (o : TrainOracle) (s : TrainState) : TrainState :=
  let m := s.model
  if m.T ≤ m.current_stage_idx then s
  else if m.current_cart_idx + 1 < (m.K : Int) then
    let r := o.trainUnit m s.pos s.neg
    let m' := { m with
      pendingUnits := m.pendingUnits ++ [r.1],
      current_cart_idx := m.current_cart_idx + 1 }
    ⟨m', r.2.1, o.mine m' r.2.1 r.2.2⟩
  else
    let r := o.trainGlobal m s.pos s.neg
    let m' := { m with
      stages := m.stages ++ [⟨m.pendingUnits, r.1.1, r.1.2⟩],
      pendingUnits := [],
      current_stage_idx := m.current_stage_idx + 1,
      current_cart_idx := -1 }
    ⟨m', r.2.1, r.2.2⟩

/-- Number of training steps left until the cursor reaches
`(stage_count, -1)`: each remaining stage costs its untrained units plus
one sealing step. -/
def remainingSteps (m : JoinCascador) : Nat :=
  (m.T - m.current_stage_idx) * (m.K + 1) - (m.current_cart_idx + 1).toNat

/-- Iterate the training step. -/
def trainLoop (o : TrainOracle) : Nat → TrainState → TrainState
  | 0, s => s
  | n + 1, s => trainLoop o n (trainStep o s)

/-- Modelled from the spec: `Train` consumes the two sample stores and
advances the cursor from its current value to `(stage_count, -1)`, sealing
every remaining stage. -/
def Train (o : TrainOracle) (m : JoinCascador) (pos neg : DataSet) : TrainState :=
  trainLoop o (remainingSteps m) ⟨m, pos, neg⟩

/-- Cursor discipline maintained by the training loop: the cart cursor
lies in `[-1, K-1]`, the stage cursor in `[0, T]`, the sealed-stage list
has one entry per finished stage, the in-progress stage holds exactly
`current_cart_idx + 1` trained units, and a complete model has no
in-progress units. -/
def CursorWF (m : JoinCascador) : Prop :=
  -1 ≤ m.current_cart_idx ∧
  m.current_cart_idx < (m.K : Int) ∧
  m.current_stage_idx ≤ m.T ∧
  m.stages.length = m.current_stage_idx ∧
  m.pendingUnits.length = (m.current_cart_idx + 1).toNat ∧
  (m.current_stage_idx = m.T → m.current_cart_idx = -1)

instance (m : JoinCascador) : Decidable (CursorWF m) := by
  unfold CursorWF; infer_instance

/-! ## Detector (`Detect`) -/

/-- Detection statistics record (`DetectionStatisic` in the header):
counters of evaluated patches, their face/non-face split, the running sum
of carts traversed, and the derived average.  Doubles are modelled as
rationals. -/
structure DetectionStatisic where
  patch_n : Int
  face_patch_n : Int
  nonface_patch_n : Int
  cart_gothrough_n : ℚ
  average_cart_n : ℚ
deriving DecidableEq, Repr

/-- The default constructor from the header: the member initializer list
sets `patch_n`, `face_patch_n`, `nonface_patch_n` and `cart_gothrough_n`
to zero; `average_cart_n` is absent from the list, so it keeps an
indeterminate value, modelled by the explicit argument. -/
def DetectionStatisic.construct (indeterminate : ℚ) : DetectionStatisic :=
  ⟨0, 0, 0, 0, indeterminate⟩

/-- Modelled from the spec: every evaluated window bumps the patch count,
one of the face/non-face counters, adds its carts-traversed count to the
running sum, and recomputes the derived average from the new count. -/
def updateStatisic (st : DetectionStatisic) (accepted : Bool) (n : Nat) :
    DetectionStatisic :=
  { patch_n := st.patch_n + 1
    face_patch_n := st.face_patch_n + (if accepted then 1 else 0)
    nonface_patch_n := st.nonface_patch_n + (if accepted then 0 else 1)
    cart_gothrough_n := st.cart_gothrough_n + (n : ℚ)
    average_cart_n := (st.cart_gothrough_n + (n : ℚ)) / ((st.patch_n + 1 : Int) : ℚ) }

/-- Modelled from the spec: finalize the derived average — the sum divided
by the patch count, defined as 0 when the patch count is 0. -/
def recomputeAverage (st : DetectionStatisic) : DetectionStatisic :=
  { st with average_cart_n :=
      if st.patch_n = 0 then 0 else st.cart_gothrough_n / ((st.patch_n : Int) : ℚ) }

/-- A gray input image: dimensions and a pixel accessor. -/
structure Image where
  width : Nat
  height : Nat
  pixel : Nat → Nat → Int

/-- One candidate window: the pyramid level's scaled dimensions and the
window's top-left position on that level. -/
structure Window where
  scaledW : Nat
  scaledH : Nat
  x : Nat
  y : Nat
deriving DecidableEq, Repr

/-- A rectangle in original-image pixel coordinates:
`(x, y, width, height)`. -/
abbrev Rect := Nat × Nat × Nat × Nat

/-- Detector configuration: window size, slide stride, and the fixed
pyramid downscale factor `factorDen / factorNum`. -/
structure DetectParam where
  winSize : Nat
  stride : Nat
  factorNum : Nat
  factorDen : Nat

/-- Modelled from the spec: the image pyramid — successive downscales of
the image dimensions by the fixed factor, kept while the scaled image
still contains the search window. -/
def pyramid (p : DetectParam) : Nat → Nat × Nat → List (Nat × Nat)
  | 0, _ => []
  | fuel + 1, wh =>
      if p.winSize ≤ wh.1 ∧ p.winSize ≤ wh.2 ∧ 0 < p.winSize then
        wh :: pyramid p fuel
          (wh.1 * p.factorDen / p.factorNum, wh.2 * p.factorDen / p.factorNum)
      else []

/-- Window positions along one axis: multiples of the stride from 0 up to
`size - winSize`. -/
def slidePositions (size win stride : Nat) : List Nat :=
  (List.range ((size - win) / (max stride 1) + 1)).map (· * max stride 1)

/-- Modelled from the spec: all candidate windows of an image — for each
pyramid level, the window slid at the fixed stride over both axes. -/
def windowsOf (p : DetectParam) (img : Image) : List Window :=
  ((pyramid p (img.width + img.height + 1) (img.width, img.height)).map fun wh =>
    ((slidePositions wh.1 p.winSize p.stride).map fun x =>
      (slidePositions wh.2 p.winSize p.stride).map fun y =>
        Window.mk wh.1 wh.2 x y).flatten).flatten

/-- Map a window back to original-image pixel coordinates. -/
def rectOf (img : Image) (w : Window) (winSize : Nat) : Rect :=
  (w.x * img.width / max w.scaledW 1, w.y * img.height / max w.scaledH 1,
   winSize * img.width / max w.scaledW 1, winSize * img.height / max w.scaledH 1)

/-- Relocate a shape estimated inside a window into original-image
coordinates by the window's scale and offset transform (coordinates
interleaved x, y). -/
def remapShape (img : Image) (w : Window) (shape : List Int) : List Int :=
  shape.enum.map fun iz =>
    if iz.1 % 2 = 0 then (iz.2 + (w.x : Int)) * img.width / (max w.scaledW 1)
    else (iz.2 + (w.y : Int)) * img.height / (max w.scaledH 1)

/-- One accepted candidate before grouping: rectangle, score and shape in
original-image coordinates. -/
structure FaceHit where
  rect : Rect
  score : Int
  shape : List Int
deriving DecidableEq, Repr

/-- Insert a hit into a score-descending list, keeping earlier hits first
on ties (the fixed tie-break rule). -/
def insertByScore (h : FaceHit) : List FaceHit → List FaceHit
  | [] => [h]
  | a :: t => if a.score < h.score then h :: a :: t else a :: insertByScore h t

/-- Stable insertion sort by descending score. -/
def sortByScore : List FaceHit → List FaceHit
  | [] => []
  | a :: t => insertByScore a (sortByScore t)

/-- Modelled from the spec: greedy non-maximum suppression over the
score-sorted hits — a hit survives when it overlaps (per the configured
overlap rule) no already-kept higher-scoring hit. -/
def nmsKeep (overlap : Rect → Rect → Bool) :
    List FaceHit → List FaceHit → List FaceHit
  | kept, [] => kept.reverse
  | kept, h :: t =>
      if kept.any fun k => overlap k.rect h.rect then nmsKeep overlap kept t
      else nmsKeep overlap (h :: kept) t

/-- Modelled from the spec: `Detect` enumerates the candidate windows of
the image pyramid, runs `Validate` on every window, updates the detection
statistics per window, collects the accepted windows as hits mapped back
to original-image coordinates, groups them by non-maximum suppression
under the configured overlap rule, and returns the face count, the
parallel rect/score/shape arrays and the finalized statistics. -/
def Detect (m : JoinCascador) (o : CartOracle (Image × Window)) (p : DetectParam)
    (overlap : Rect → Rect → Bool) (img : Image) (st0 : DetectionStatisic) :
    Nat × List Rect × List Int × List (List Int) × DetectionStatisic :=
  let evals := (windowsOf p img).map fun w => (w, Validate m o (img, w))
  let stats := recomputeAverage
    (evals.foldl (fun st e => updateStatisic st e.2.accepted e.2.n) st0)
  let hits := (evals.filter fun e => e.2.accepted).map fun e =>
    FaceHit.mk (rectOf img e.1 p.winSize) e.2.score (remapShape img e.1 e.2.shape)
  let kept := nmsKeep overlap [] (sortByScore hits)
  (kept.length, kept.map FaceHit.rect, kept.map FaceHit.score,
    kept.map FaceHit.shape, stats)

/-! ## Reader evaluation lemmas -/

theorem rBind_eval {α β : Type} {p : Reader α} {f : α → Reader β} {s : List Int}
    {a : α} {s' : List Int} (h : p s = some (a, s')) :
    rBind p f s = f a s' := by
  simp [rBind, h]

theorem read1_cons (x : Int) (t : List Int) : read1 (x :: t) = some (x, t) := rfl

theorem rCheck_true {p : Prop} [Decidable p] (h : p) (s : List Int) :
    rCheck p s = some ((), s) := by
  simp [rCheck, h]

theorem rPure_eval {α : Type} (a : α) (s : List Int) : rPure a s = some (a, s) := rfl

theorem readN_exact {n : Nat} {l : List Int} (r : List Int) (h : l.length = n) :
    readN n (l ++ r) = some (l, r) := by
  subst h
  simp [readN, List.take_left, List.drop_left]

theorem readUnit_exact {c : Config} {u : UnitRecord} (r : List Int)
    (h : UnitWF c u) :
    readUnit c (u.content ++ r) = some (u, r) := by
  rw [readUnit, rBind_eval (readN_exact r h)]
  rfl

theorem readRepeat_units {c : Config} {us : List UnitRecord} (r : List Int)
    (h : ∀ u ∈ us, UnitWF c u) :
    readRepeat (readUnit c) us.length
      ((us.map UnitRecord.content).flatten ++ r) = some (us, r) := by
  induction us generalizing r with
  | nil => rfl
  | cons u us ih =>
      have hu : UnitWF c u := h u (by simp)
      have hrec := ih r (fun v hv => h v (by simp [hv]))
      rw [List.length_cons, readRepeat, List.map_cons, List.flatten_cons,
        List.append_assoc, rBind_eval (readUnit_exact _ hu), rBind_eval hrec]
      rfl

theorem readStage_exact {c : Config} {st : StageRecord} (r : List Int)
    (h : StageWF c st) :
    readStage c (serializeStage st c ++ r) = some (st, r) := by
  obtain ⟨hk, hu, hg⟩ := h
  rw [readStage, serializeStage]
  rw [List.cons_append, List.cons_append,
    rBind_eval (read1_cons _ _), rBind_eval (read1_cons _ _),
    rBind_eval (rCheck_true ⟨rfl, rfl⟩ _)]
  rw [List.append_assoc, ← hk,
    rBind_eval (readRepeat_units _ hu),
    List.cons_append,
    rBind_eval (read1_cons _ _),
    rBind_eval (readN_exact r hg)]
  rfl

theorem readRepeat_stages {c : Config} {sts : List StageRecord} (r : List Int)
    (h : ∀ st ∈ sts, StageWF c st) :
    readRepeat (readStage c) sts.length
      ((sts.map fun st => serializeStage st c).flatten ++ r) = some (sts, r) := by
  induction sts generalizing r with
  | nil => rfl
  | cons st sts ih =>
      have hst : StageWF c st := h st (by simp)
      have hrec := ih r (fun v hv => h v (by simp [hv]))
      rw [List.length_cons, readRepeat, List.map_cons, List.flatten_cons,
        List.append_assoc, rBind_eval (readStage_exact _ hst), rBind_eval hrec]
      rfl

/-- Central round-trip lemma: on a well-formed model, the model reader
consumes the whole serialized stream and reproduces the model exactly. -/
theorem readModel_serialize {m : JoinCascador} (h : ModelWF m) :
    readModel (SerializeTo m) = some (m, []) := by
  obtain ⟨hms, hst, hstw, hpw, hc1, hc2, hse, hpl, hcomp⟩ := h
  rw [readModel, SerializeTo]
  rw [rBind_eval (read1_cons _ _), rBind_eval (read1_cons _ _),
    rBind_eval (read1_cons _ _), rBind_eval (read1_cons _ _),
    rBind_eval (rCheck_true ⟨Int.natCast_nonneg _, Int.natCast_nonneg _,
      Int.natCast_nonneg _, Int.natCast_nonneg _⟩ _)]
  have hms' : m.mean_shape.length = 2 * ((m.landmark_n : Int)).toNat := by
    simpa using hms
  rw [rBind_eval (readN_exact _ hms'),
    rBind_eval (read1_cons _ _), rBind_eval (read1_cons _ _),
    rBind_eval (rCheck_true (Int.natCast_nonneg _) _)]
  have hcfg : (Config.mk ((m.T : Int)).toNat ((m.K : Int)).toNat
      ((m.landmark_n : Int)).toNat ((m.tree_depth : Int)).toNat) = configOf m := by
    simp [configOf]
  have hsn : ((m.current_stage_idx : Int)).toNat = m.stages.length := by
    simpa using hst.symm
  rw [hcfg, hsn, rBind_eval (readRepeat_stages _ hstw)]
  by_cases hci : 0 ≤ m.current_cart_idx
  · have hp := readRepeat_units (c := configOf m) [] hpw
    rw [List.append_nil] at hp
    rw [if_pos hci, if_pos hci, ← hpl, rBind_eval hp]
    simp [rPure, hst]
  · have hpe : m.pendingUnits = [] := by
      have : m.current_cart_idx = -1 := by omega
      have : m.pendingUnits.length = 0 := by
        rw [hpl, this]; rfl
      exact List.length_eq_zero.mp this
    rw [if_neg hci, if_neg hci, rBind_eval (rPure_eval _ _)]
    simp [rPure, hst]
    rw [← hpe]

/-! ## Truncation behaviour of the readers

A reader is truncation-safe when, on any stream it accepts, feeding it a
strict prefix either fails or yields the same value while strictly
shortening the unconsumed suffix.  All readers of the persistence layer
are truncation-safe, which forces the model reader to fail on every
strict prefix of a valid checkpoint stream. -/

/-- Truncation safety of a reader. -/
def TruncSafe {α : Type} (p : Reader α) : Prop :=
  ∀ s k a rest, k < s.length → p s = some (a, rest) →
    p (s.take k) = none ∨
      ∃ k', k' < rest.length ∧ p (s.take k) = some (a, rest.take k')

theorem truncSafe_rPure {α : Type} (a : α) : TruncSafe (rPure a) := by
  intro s k b rest hk h
  rw [rPure] at h
  obtain ⟨rfl, rfl⟩ : a = b ∧ s = rest := by simpa using h
  exact Or.inr ⟨k, hk, rfl⟩

theorem truncSafe_read1 : TruncSafe read1 := by
  intro s k b rest hk h
  cases s with
  | nil => simp [read1] at h
  | cons x t =>
      obtain ⟨rfl, rfl⟩ : x = b ∧ t = rest := by simpa [read1] using h
      cases k with
      | zero => exact Or.inl rfl
      | succ j => exact Or.inr ⟨j, by simpa using hk, rfl⟩

theorem truncSafe_readN (n : Nat) : TruncSafe (readN n) := by
  intro s k b rest hk h
  rw [readN] at h
  by_cases hn : n ≤ s.length
  · rw [if_pos hn] at h
    obtain ⟨rfl, rfl⟩ : s.take n = b ∧ s.drop n = rest := by simpa using h
    by_cases hkn : k < n
    · refine Or.inl ?_
      rw [readN, if_neg]
      rw [List.length_take]
      omega
    · refine Or.inr ⟨k - n, ?_, ?_⟩
      · rw [List.length_drop]; omega
      · rw [readN, if_pos (by rw [List.length_take]; omega)]
        rw [List.take_take, min_eq_left (by omega), List.drop_take]
  · rw [if_neg hn] at h
    exact absurd h (by simp)

theorem truncSafe_rCheck (p : Prop) [Decidable p] : TruncSafe (rCheck p) := by
  intro s k b rest hk h
  rw [rCheck] at h
  by_cases hp : p
  · rw [if_pos hp] at h
    obtain ⟨rfl, rfl⟩ : () = b ∧ s = rest := by simpa using h
    exact Or.inr ⟨k, hk, by rw [rCheck, if_pos hp]⟩
  · rw [if_neg hp] at h
    exact absurd h (by simp)

theorem rBind_none {α β : Type} {p : Reader α} {f : α → Reader β} {s : List Int}
    (h : p s = none) : rBind p f s = none := by
  simp [rBind, h]

theorem truncSafe_rBind {α β : Type} {p : Reader α} {f : α → Reader β}
    (hp : TruncSafe p) (hf : ∀ a, TruncSafe (f a)) : TruncSafe (rBind p f) := by
  intro s k b rest hk h
  rw [rBind] at h
  cases hps : p s with
  | none => rw [hps] at h; exact absurd h (by simp)
  | some as =>
      obtain ⟨a, s₁⟩ := as
      rw [hps] at h
      rcases hp s k a s₁ hk hps with hnone | ⟨k₁, hk₁, hsome⟩
      · exact Or.inl (rBind_none hnone)
      · rcases hf a s₁ k₁ b rest hk₁ h with hnone2 | ⟨k₂, hk₂, hsome2⟩
        · exact Or.inl (by rw [rBind, hsome]; exact hnone2)
        · exact Or.inr ⟨k₂, hk₂, by rw [rBind, hsome]; exact hsome2⟩

theorem truncSafe_ite (c : Prop) [Decidable c] {α : Type} {p q : Reader α}
    (hp : TruncSafe p) (hq : TruncSafe q) : TruncSafe (if c then p else q) := by
  split
  · exact hp
  · exact hq

theorem truncSafe_readRepeat {α : Type} {p : Reader α} (hp : TruncSafe p) :
    ∀ n, TruncSafe (readRepeat p n) := by
  intro n
  induction n with
  | zero => exact truncSafe_rPure []
  | succ n ih =>
      rw [readRepeat]
      exact truncSafe_rBind hp fun a =>
        truncSafe_rBind ih fun as => truncSafe_rPure _

theorem truncSafe_readUnit (c : Config) : TruncSafe (readUnit c) := by
  rw [readUnit]
  exact truncSafe_rBind (truncSafe_readN _) fun l => truncSafe_rPure _

theorem truncSafe_readStage (c : Config) : TruncSafe (readStage c) := by
  rw [readStage]
  refine truncSafe_rBind truncSafe_read1 fun l => ?_
  refine truncSafe_rBind truncSafe_read1 fun d => ?_
  refine truncSafe_rBind (truncSafe_rCheck _) fun u => ?_
  refine truncSafe_rBind (truncSafe_readRepeat (truncSafe_readUnit c) _) fun us => ?_
  refine truncSafe_rBind truncSafe_read1 fun th => ?_
  exact truncSafe_rBind (truncSafe_readN _) fun gr => truncSafe_rPure _

theorem truncSafe_readModel : TruncSafe readModel := by
  rw [readModel]
  refine truncSafe_rBind truncSafe_read1 fun t => ?_
  refine truncSafe_rBind truncSafe_read1 fun k => ?_
  refine truncSafe_rBind truncSafe_read1 fun l => ?_
  refine truncSafe_rBind truncSafe_read1 fun d => ?_
  refine truncSafe_rBind (truncSafe_rCheck _) fun u => ?_
  refine truncSafe_rBind (truncSafe_readN _) fun ms => ?_
  refine truncSafe_rBind truncSafe_read1 fun si => ?_
  refine truncSafe_rBind truncSafe_read1 fun ci => ?_
  refine truncSafe_rBind (truncSafe_rCheck _) fun u2 => ?_
  refine truncSafe_rBind (truncSafe_readRepeat (truncSafe_readStage _) _) fun sts => ?_
  refine truncSafe_rBind
    (truncSafe_ite _ (truncSafe_readRepeat (truncSafe_readUnit _) _) (truncSafe_rPure _))
    fun pus => truncSafe_rPure _

/-! ## Concrete example models used to instantiate the theorems -/

/-- A small well-formed mid-training model: one sealed stage out of two,
one trained unit of the in-progress stage. -/
def mEx : JoinCascador :=
  { T := 2, K := 1, landmark_n := 1, tree_depth := 1,
    mean_shape := [1, 2],
    stages := [⟨[⟨[3, 4]⟩], 5, [6, 7]⟩],
    pendingUnits := [⟨[8, 9]⟩],
    current_stage_idx := 1,
    current_cart_idx := 0 }

/-- A fresh well-formed model serialized with `stage_count = 3`. -/
def mEx3 : JoinCascador :=
  { T := 3, K := 1, landmark_n := 1, tree_depth := 0,
    mean_shape := [0, 0], stages := [], pendingUnits := [],
    current_stage_idx := 0, current_cart_idx := -1 }

/-- The active model of the resume-mismatch scenario: `stage_count = 5`. -/
def mEx5 : JoinCascador := { mEx3 with T := 5 }

/-! ## Persistence claims -/

/-- Claim C1: for every well-formed model `m`, deserializing the stream
produced by serializing `m` yields exactly `m`'s state — in particular its
configuration (`T`, `K`, `landmark_n`, `tree_depth`), its `mean_shape`,
its training cursor and every sealed stage's encoded content. -/
theorem serializeFrom_serializeTo_roundtrip (m : JoinCascador)
    (h : ModelWF m) : SerializeFrom (SerializeTo m) = some m := by
  unfold SerializeFrom
  rw [readModel_serialize h]

/-- Witness for claim C1 at the concrete model `mEx`. -/
theorem serializeFrom_serializeTo_roundtrip_witness :
    ModelWF mEx ∧ SerializeFrom (SerializeTo mEx) = some mEx :=
  ⟨by decide, serializeFrom_serializeTo_roundtrip mEx (by decide)⟩

/-- Claim C9: deserialization fails with a format error on every strict
truncation of a valid checkpoint stream — leaving the in-memory model
unchanged — and rejects any sealed-stage record whose declared landmark
count or tree depth contradicts the header's configuration. -/
theorem serializeFrom_fails_on_malformed (m0 m : JoinCascador)
    (hwf : ModelWF m0) :
    (∀ k, k < (SerializeTo m0).length →
      SerializeFrom ((SerializeTo m0).take k) = none ∧
      serializeFromState m ((SerializeTo m0).take k) = m) ∧
    (∀ (c : Config) (l d : Int) (r : List Int),
      l ≠ (c.landmark_n : Int) ∨ d ≠ (c.tree_depth : Int) →
      readStage c (l :: d :: r) = none) := by
  constructor
  · intro k hk
    have hnone : readModel ((SerializeTo m0).take k) = none := by
      rcases truncSafe_readModel (SerializeTo m0) k m0 [] hk
        (readModel_serialize hwf) with hnone | ⟨k', hk', _⟩
      · exact hnone
      · simp at hk'
    constructor
    · unfold SerializeFrom
      rw [hnone]
    · unfold serializeFromState SerializeFrom
      rw [hnone]
      rfl
  · intro c l d r hne
    rw [readStage, rBind_eval (read1_cons l (d :: r)),
      rBind_eval (read1_cons d r)]
    refine rBind_none ?_
    rw [rCheck, if_neg]
    rintro ⟨h1, h2⟩
    rcases hne with h | h
    · exact h h1
    · exact h h2

/-- Witness for claim C9: truncating the valid stream of `mEx` after three
words makes deserialization fail. -/
theorem serializeFrom_fails_on_malformed_witness :
    ModelWF mEx ∧ 3 < (SerializeTo mEx).length ∧
      SerializeFrom ((SerializeTo mEx).take 3) = none :=
  ⟨by decide, by decide,
    ((serializeFrom_fails_on_malformed mEx mEx (by decide)).1 3 (by decide)).1⟩

/-- Claim C3: when the fixed configuration decoded from a checkpoint
differs from the active model's configuration, `Resume` fails fatally
before any mutation, leaving the model state exactly as before the call. -/
theorem resume_config_mismatch_fatal (m m' : JoinCascador) (s : List Int)
    (hd : SerializeFrom s = some m') (hc : configOf m' ≠ configOf m) :
    Resume m s = none ∧ resumeState m s = m := by
  have h1 : Resume m s = none := by
    unfold Resume
    rw [hd]
    exact if_neg hc
  refine ⟨h1, ?_⟩
  unfold resumeState
  rw [h1]
  rfl

/-- Witness for claim C3, the spec's Scenario C: resuming a `stage_count
= 5` model from a checkpoint serialized with `stage_count = 3` fails. -/
theorem resume_config_mismatch_fatal_witness :
    SerializeFrom (SerializeTo mEx3) = some mEx3 ∧
      configOf mEx3 ≠ configOf mEx5 ∧
      Resume mEx5 (SerializeTo mEx3) = none ∧
      resumeState mEx5 (SerializeTo mEx3) = mEx5 :=
  ⟨by decide, by decide,
    (resume_config_mismatch_fatal mEx5 mEx3 (SerializeTo mEx3)
      (by decide) (by decide)).1,
    (resume_config_mismatch_fatal mEx5 mEx3 (SerializeTo mEx3)
      (by decide) (by decide)).2⟩

/-! ## Evaluator claims -/

/-- Splitting the stage list of an evaluation: the second part runs only
when the first part accepted, continuing from its accumulated state. -/
theorem validateStages_append {P : Type} (o : CartOracle P) (p : P)
    (l1 l2 : List StageRecord) (score : Int) (shape : List Int) (n : Nat) :
    validateStages o p (l1 ++ l2) score shape n =
      if (validateStages o p l1 score shape n).accepted then
        validateStages o p l2 (validateStages o p l1 score shape n).score
          (validateStages o p l1 score shape n).shape
          (validateStages o p l1 score shape n).n
      else validateStages o p l1 score shape n := by
  induction l1 generalizing score shape n with
  | nil => simp [validateStages]
  | cons st l1 ih =>
      rw [List.cons_append]
      by_cases hrej : (runUnits o p st.units (score, shape)).1 < st.threshold
      · simp only [validateStages, if_pos hrej]
        rfl
      · simp only [validateStages, if_neg hrej]
        exact ih _ _ _

/-- Evaluation of one stage that rejects: the accumulated score after the
stage's units falls below the threshold, so the result is a rejection with
`n` set to the rejecting unit's index, regardless of the remaining
stages. -/
theorem validateStages_cons_reject {P : Type} (o : CartOracle P) (p : P)
    (st : StageRecord) (rest : List StageRecord) (score : Int)
    (shape : List Int) (n : Nat)
    (h : (runUnits o p st.units (score, shape)).1 < st.threshold) :
    validateStages o p (st :: rest) score shape n
      = ⟨false, (runUnits o p st.units (score, shape)).1,
          o.evalGlobal st.globalReg p (runUnits o p st.units (score, shape)).2,
          n + st.units.length - 1⟩ := by
  simp only [validateStages, if_pos h]

/-- Claim C2: within one `Validate` call in either mode — inference on a
complete cascade or training mode on a partial one — once the sealed
stage `st` rejects (its accumulated score falls below its threshold), the
call returns rejection with `n` equal to the rejecting unit's index, and
the result equals the evaluation stopped at `st`: no unit of any later
stage, nor any of the in-progress stage's units, is evaluated, and
acceptance is not recovered. -/
theorem validate_rejection_final {P : Type} (o : CartOracle P) (p : P)
    (m : JoinCascador) (s1 s2 : List StageRecord) (st : StageRecord)
    (hm : m.stages = s1 ++ st :: s2)
    (hacc : (validateStages o p s1 0 m.mean_shape 0).accepted = true)
    (hrej : (runUnits o p st.units
      ((validateStages o p s1 0 m.mean_shape 0).score,
       (validateStages o p s1 0 m.mean_shape 0).shape)).1 < st.threshold) :
    Validate m o p = validateStages o p (s1 ++ [st]) 0 m.mean_shape 0 ∧
      (Validate m o p).accepted = false ∧
      (Validate m o p).n
        = (validateStages o p s1 0 m.mean_shape 0).n + st.units.length - 1 := by
  have h1 : validateStages o p (s1 ++ st :: s2) 0 m.mean_shape 0
      = validateStages o p (s1 ++ [st]) 0 m.mean_shape 0 := by
    rw [validateStages_append, validateStages_append, if_pos hacc, if_pos hacc,
      validateStages_cons_reject o p st s2 _ _ _ hrej,
      validateStages_cons_reject o p st [] _ _ _ hrej]
  have haccF : (validateStages o p (s1 ++ [st]) 0 m.mean_shape 0).accepted = false := by
    rw [validateStages_append, if_pos hacc,
      validateStages_cons_reject o p st [] _ _ _ hrej]
  have hv : Validate m o p = validateStages o p (s1 ++ [st]) 0 m.mean_shape 0 := by
    unfold Validate
    rw [hm, h1]
    by_cases hc : m.current_stage_idx = m.T
    · rw [if_pos hc]
    · rw [if_neg hc, haccF]
      simp
  refine ⟨hv, ?_, ?_⟩
  · rw [hv]
    exact haccF
  · rw [hv, validateStages_append, if_pos hacc,
      validateStages_cons_reject o p st [] _ _ _ hrej]

/-- A concrete cart oracle: each unit contributes its first stored word as
score increment and leaves the shape unchanged. -/
def oEx : CartOracle Unit :=
  { evalUnit := fun u _ shape => (u.content.headD 0, shape),
    evalGlobal := fun _ _ shape => shape }

/-- A stage that rejects everything under `oEx` (its unit scores -5,
threshold 0). -/
def stEx : StageRecord := ⟨[⟨[-5, 0]⟩], 0, [0, 0]⟩

/-- A complete two-stage model whose first stage is `stEx`. -/
def mExRej : JoinCascador :=
  { T := 2, K := 1, landmark_n := 1, tree_depth := 1,
    mean_shape := [0, 0],
    stages := [stEx, ⟨[⟨[1, 0]⟩], 0, [0, 0]⟩],
    pendingUnits := [],
    current_stage_idx := 2,
    current_cart_idx := -1 }

/-- A mid-training variant of `mExRej`: its one sealed stage is the
rejecting `stEx`, and the in-progress stage has one trained unit, so the
witness exercises training mode. -/
def mExRejT : JoinCascador :=
  { mExRej with
    stages := [stEx], pendingUnits := [⟨[9, 0]⟩],
    current_stage_idx := 1, current_cart_idx := 0 }

/-- Witness for claim C2 in training mode: on `mExRejT` the sealed stage
rejects, the in-progress stage's unit is never evaluated, and `n` is the
rejecting unit's index 0. -/
theorem validate_rejection_final_witness :
    (Validate mExRejT oEx ()).accepted = false ∧ (Validate mExRejT oEx ()).n = 0 :=
  ⟨(validate_rejection_final oEx () mExRejT [] [] stEx
      rfl rfl (by decide)).2.1,
    (validate_rejection_final oEx () mExRejT [] [] stEx
      rfl rfl (by decide)).2.2⟩


/-! ## Training orchestrator claims -/

/-- Behaviour of the training step when the current stage still has
untrained units. -/
theorem trainStep_unit_eq (o : TrainOracle) (s : TrainState)
    (hdone : ¬ s.model.T ≤ s.model.current_stage_idx)
    (hu : s.model.current_cart_idx + 1 < (s.model.K : Int)) :
    (trainStep o s).model = { s.model with
      pendingUnits := s.model.pendingUnits ++ [(o.trainUnit s.model s.pos s.neg).1],
      current_cart_idx := s.model.current_cart_idx + 1 } := by
  simp only [trainStep, if_neg hdone, if_pos hu]

/-- Behaviour of the training step when all `K` units of the stage are
trained: global regression, sealing, and cursor advance. -/
theorem trainStep_seal_eq (o : TrainOracle) (s : TrainState)
    (hdone : ¬ s.model.T ≤ s.model.current_stage_idx)
    (hu : ¬ s.model.current_cart_idx + 1 < (s.model.K : Int)) :
    (trainStep o s).model = { s.model with
      stages := s.model.stages ++
        [⟨s.model.pendingUnits, (o.trainGlobal s.model s.pos s.neg).1.1,
          (o.trainGlobal s.model s.pos s.neg).1.2⟩],
      pendingUnits := [],
      current_stage_idx := s.model.current_stage_idx + 1,
      current_cart_idx := -1 } := by
  simp only [trainStep, if_neg hdone, if_neg hu]

/-- A complete model is a fixed point of the training step. -/
theorem trainStep_complete (o : TrainOracle) (s : TrainState)
    (h : s.model.T ≤ s.model.current_stage_idx) : trainStep o s = s := by
  simp only [trainStep, if_pos h]

/-- One incomplete training step preserves the cursor discipline, keeps
the stage count, and decreases the number of remaining steps by exactly
one. -/
theorem trainStep_cursor (o : TrainOracle) (s : TrainState)
    (h : CursorWF s.model) (hlt : s.model.current_stage_idx < s.model.T) :
    CursorWF (trainStep o s).model ∧
      (trainStep o s).model.T = s.model.T ∧
      remainingSteps s.model = remainingSteps (trainStep o s).model + 1 := by
  obtain ⟨hc1, hc2, hse, hst, hpl, hcomp⟩ := h
  have hdone : ¬ s.model.T ≤ s.model.current_stage_idx := by omega
  by_cases hu : s.model.current_cart_idx + 1 < (s.model.K : Int)
  · rw [trainStep_unit_eq o s hdone hu]
    refine ⟨⟨?_, ?_, ?_, ?_, ?_, ?_⟩, rfl, ?_⟩
    · show -1 ≤ s.model.current_cart_idx + 1
      omega
    · show s.model.current_cart_idx + 1 < (s.model.K : Int)
      exact hu
    · show s.model.current_stage_idx ≤ s.model.T
      omega
    · show s.model.stages.length = s.model.current_stage_idx
      exact hst
    · show (s.model.pendingUnits ++ [(o.trainUnit s.model s.pos s.neg).1]).length
        = (s.model.current_cart_idx + 1 + 1).toNat
      rw [List.length_append, hpl]
      simp only [List.length_cons, List.length_nil]
      omega
    · show s.model.current_stage_idx = s.model.T → s.model.current_cart_idx + 1 = -1
      intro he
      omega
    · show (s.model.T - s.model.current_stage_idx) * (s.model.K + 1)
          - (s.model.current_cart_idx + 1).toNat
        = ((s.model.T - s.model.current_stage_idx) * (s.model.K + 1)
          - (s.model.current_cart_idx + 1 + 1).toNat) + 1
      have hkp : s.model.K + 1 ≤
          (s.model.T - s.model.current_stage_idx) * (s.model.K + 1) :=
        Nat.le_mul_of_pos_left _ (by omega)
      generalize (s.model.T - s.model.current_stage_idx) * (s.model.K + 1) = P at hkp ⊢
      omega
  · rw [trainStep_seal_eq o s hdone hu]
    refine ⟨⟨?_, ?_, ?_, ?_, ?_, ?_⟩, rfl, ?_⟩
    · show -1 ≤ (-1 : Int)
      omega
    · show (-1 : Int) < (s.model.K : Int)
      omega
    · show s.model.current_stage_idx + 1 ≤ s.model.T
      omega
    · show (s.model.stages ++ [_]).length = s.model.current_stage_idx + 1
      rw [List.length_append, hst]
      rfl
    · show ([] : List UnitRecord).length = ((-1 : Int) + 1).toNat
      rfl
    · show s.model.current_stage_idx + 1 = s.model.T → (-1 : Int) = -1
      intro _
      rfl
    · show (s.model.T - s.model.current_stage_idx) * (s.model.K + 1)
          - (s.model.current_cart_idx + 1).toNat
        = ((s.model.T - (s.model.current_stage_idx + 1)) * (s.model.K + 1)
          - ((-1 : Int) + 1).toNat) + 1
      have ha : s.model.T - s.model.current_stage_idx
          = (s.model.T - (s.model.current_stage_idx + 1)) + 1 := by omega
      rw [ha, Nat.succ_mul]
      generalize (s.model.T - (s.model.current_stage_idx + 1)) * (s.model.K + 1) = Q
      omega

/-- The training loop run for exactly the remaining number of steps
reaches the completed cursor `(stage_count, -1)` with one sealed stage
per stage of the configuration. -/
theorem trainLoop_completes (o : TrainOracle) :
    ∀ (n : Nat) (s : TrainState), CursorWF s.model → remainingSteps s.model = n →
      (trainLoop o n s).model.current_stage_idx = s.model.T ∧
      (trainLoop o n s).model.current_cart_idx = -1 ∧
      (trainLoop o n s).model.stages.length = s.model.T := by
  intro n
  induction n with
  | zero =>
      intro s h hr
      obtain ⟨hc1, hc2, hse, hst, hpl, hcomp⟩ := h
      have hsi : s.model.current_stage_idx = s.model.T := by
        by_contra hne
        have hlt : s.model.current_stage_idx < s.model.T := by omega
        have hkp : s.model.K + 1 ≤
            (s.model.T - s.model.current_stage_idx) * (s.model.K + 1) :=
          Nat.le_mul_of_pos_left _ (by omega)
        unfold remainingSteps at hr
        generalize (s.model.T - s.model.current_stage_idx) * (s.model.K + 1) = P
          at hkp hr
        omega
      refine ⟨hsi, hcomp hsi, ?_⟩
      show s.model.stages.length = s.model.T
      rw [hst, hsi]
  | succ n ih =>
      intro s h hr
      have hlt : s.model.current_stage_idx < s.model.T := by
        by_contra hge
        obtain ⟨hc1, hc2, hse, hst, hpl, hcomp⟩ := h
        have hsi : s.model.current_stage_idx = s.model.T := by omega
        have hz : remainingSteps s.model = 0 := by
          unfold remainingSteps
          rw [hsi, Nat.sub_self, Nat.zero_mul]
          omega
        omega
      obtain ⟨hwf', hT', hdec⟩ := trainStep_cursor o s h hlt
      have hres := ih (trainStep o s) hwf' (by omega)
      rw [hT'] at hres
      show (trainLoop o n (trainStep o s)).model.current_stage_idx = s.model.T ∧
        (trainLoop o n (trainStep o s)).model.current_cart_idx = -1 ∧
        (trainLoop o n (trainStep o s)).model.stages.length = s.model.T
      exact hres

/-- Claim C4: for every model obeying the cursor discipline, any pair of
sample stores and any training oracle, `Train` runs to completion: the
cursor ends at `(stage_count, -1)` and the number of sealed stages equals
`stage_count`. -/
theorem train_completes (o : TrainOracle) (m : JoinCascador)
    (pos neg : DataSet) (h : CursorWF m) :
    (Train o m pos neg).model.current_stage_idx = m.T ∧
      (Train o m pos neg).model.current_cart_idx = -1 ∧
      (Train o m pos neg).model.stages.length = m.T :=
  trainLoop_completes o (remainingSteps m) ⟨m, pos, neg⟩ h rfl

/-- A concrete training oracle for the witnesses. -/
def oTr : TrainOracle :=
  { trainUnit := fun _ p n => (⟨[0]⟩, p, n),
    mine := fun _ _ n => n,
    trainGlobal := fun _ p n => ((0, [0, 0]), p, n) }

/-- A concrete sample store for the witnesses. -/
def dEx : DataSet := ⟨[]⟩

/-- An untrained one-stage, one-unit model (the spec's Scenario A
configuration shape). -/
def mExA : JoinCascador :=
  { T := 1, K := 1, landmark_n := 5,
    tree_depth := 0, mean_shape := [0, 0, 0, 0, 0, 0, 0, 0, 0, 0],
    stages := [], pendingUnits := [],
    current_stage_idx := 0, current_cart_idx := -1 }

/-- Witness for claim C4 at the Scenario A shape: after `Train`, the
cursor is `(1, -1)` and one stage is sealed. -/
theorem train_completes_witness :
    CursorWF mExA ∧
      (Train oTr mExA dEx dEx).model.current_stage_idx = 1 ∧
      (Train oTr mExA dEx dEx).model.current_cart_idx = -1 ∧
      (Train oTr mExA dEx dEx).model.stages.length = 1 :=
  ⟨by decide,
    (train_completes oTr mExA dEx dEx (by decide)).1,
    (train_completes oTr mExA dEx dEx (by decide)).2.1,
    (train_completes oTr mExA dEx dEx (by decide)).2.2⟩

/-- Claim C5: the training step keeps the cart cursor inside
`[-1, units_per_stage - 1]`, and when `current_cart_idx` equals
`units_per_stage - 1` on an unfinished stage, all `K` units of the stage
are trained and only the global shape-regression step remains: the step
seals the stage into `stages` and advances the cursor to
`(current_stage_idx + 1, -1)`. -/
theorem cursor_convention (o : TrainOracle) (s : TrainState)
    (h : CursorWF s.model) :
    (-1 ≤ (trainStep o s).model.current_cart_idx ∧
      (trainStep o s).model.current_cart_idx
        < ((trainStep o s).model.K : Int)) ∧
    (s.model.current_cart_idx = (s.model.K : Int) - 1 →
      s.model.current_stage_idx < s.model.T →
      s.model.pendingUnits.length = s.model.K ∧
      (trainStep o s).model.current_stage_idx = s.model.current_stage_idx + 1 ∧
      (trainStep o s).model.current_cart_idx = -1 ∧
      ∃ th gr, (trainStep o s).model.stages
        = s.model.stages ++ [⟨s.model.pendingUnits, th, gr⟩]) := by
  obtain ⟨hc1, hc2, hse, hst, hpl, hcomp⟩ := h
  constructor
  · by_cases hdone : s.model.T ≤ s.model.current_stage_idx
    · rw [trainStep_complete o s hdone]
      exact ⟨hc1, hc2⟩
    · by_cases hu : s.model.current_cart_idx + 1 < (s.model.K : Int)
      · rw [trainStep_unit_eq o s hdone hu]
        constructor
        · show -1 ≤ s.model.current_cart_idx + 1
          omega
        · show s.model.current_cart_idx + 1 < (s.model.K : Int)
          exact hu
      · rw [trainStep_seal_eq o s hdone hu]
        constructor
        · show -1 ≤ (-1 : Int)
          omega
        · show (-1 : Int) < (s.model.K : Int)
          omega
  · intro hlast hlt
    have hdone : ¬ s.model.T ≤ s.model.current_stage_idx := by omega
    have hu : ¬ s.model.current_cart_idx + 1 < (s.model.K : Int) := by omega
    rw [trainStep_seal_eq o s hdone hu]
    refine ⟨?_, rfl, rfl, ⟨_, _, rfl⟩⟩
    rw [hpl]
    omega

/-- Witness for claim C5 at `mEx` (cart cursor at `K - 1` on an
unfinished stage): the step seals the stage and advances the cursor. -/
theorem cursor_convention_witness :
    CursorWF mEx ∧
      (trainStep oTr ⟨mEx, dEx, dEx⟩).model.current_stage_idx
        = mEx.current_stage_idx + 1 ∧
      (trainStep oTr ⟨mEx, dEx, dEx⟩).model.current_cart_idx = -1 :=
  ⟨by decide,
    ((cursor_convention oTr ⟨mEx, dEx, dEx⟩ (by decide)).2
      (by decide) (by decide)).2.1,
    ((cursor_convention oTr ⟨mEx, dEx, dEx⟩ (by decide)).2
      (by decide) (by decide)).2.2.1⟩

/-- The training loop after `i + 1` steps is one step applied to the loop
after `i` steps. -/
theorem trainLoop_succ_outer (o : TrainOracle) :
    ∀ (i : Nat) (s : TrainState),
      trainLoop o (i + 1) s = trainStep o (trainLoop o i s) := by
  intro i
  induction i with
  | zero => intro s; rfl
  | succ i ih =>
      intro s
      show trainLoop o (i + 1) (trainStep o s) = _
      rw [ih (trainStep o s)]
      rfl

/-- The stage cursor never decreases across one training step. -/
theorem trainStep_stage_mono (o : TrainOracle) (s : TrainState) :
    s.model.current_stage_idx ≤ (trainStep o s).model.current_stage_idx := by
  by_cases hdone : s.model.T ≤ s.model.current_stage_idx
  · rw [trainStep_complete o s hdone]
  · by_cases hu : s.model.current_cart_idx + 1 < (s.model.K : Int)
    · rw [trainStep_unit_eq o s hdone hu]
    · rw [trainStep_seal_eq o s hdone hu]
      show s.model.current_stage_idx ≤ s.model.current_stage_idx + 1
      omega

/-- The stage cursor never decreases across any run of the loop. -/
theorem trainLoop_stage_mono (o : TrainOracle) :
    ∀ (n : Nat) (s : TrainState),
      s.model.current_stage_idx ≤ (trainLoop o n s).model.current_stage_idx := by
  intro n
  induction n with
  | zero => intro s; exact Nat.le_refl _
  | succ n ih =>
      intro s
      show s.model.current_stage_idx
        ≤ (trainLoop o n (trainStep o s)).model.current_stage_idx
      exact Nat.le_trans (trainStep_stage_mono o s) (ih (trainStep o s))

/-- Loop runs compose. -/
theorem trainLoop_add (o : TrainOracle) :
    ∀ (a b : Nat) (s : TrainState),
      trainLoop o (a + b) s = trainLoop o a (trainLoop o b s) := by
  intro a b
  induction b generalizing a with
  | zero => intro s; rfl
  | succ b ih =>
      intro s
      show trainLoop o (a + b) (trainStep o s) = _
      rw [ih a (trainStep o s)]
      rfl

/-- Claim C7: along the training trace (any sequence of training steps,
hence any sequence of `Train` calls resumed from checkpointed states of
that trace), the stage cursor never decreases, and the cart cursor is
reset to `-1` only in a step in which the stage cursor increases by
one. -/
theorem cursor_monotonic (o : TrainOracle) (s : TrainState) :
    (∀ i j, i ≤ j →
      (trainLoop o i s).model.current_stage_idx
        ≤ (trainLoop o j s).model.current_stage_idx) ∧
    (∀ i, 0 ≤ (trainLoop o i s).model.current_cart_idx →
      (trainLoop o (i + 1) s).model.current_cart_idx = -1 →
      (trainLoop o (i + 1) s).model.current_stage_idx
        = (trainLoop o i s).model.current_stage_idx + 1) := by
  constructor
  · intro i j hij
    have hj : j = (j - i) + i := by omega
    rw [hj, trainLoop_add]
    exact trainLoop_stage_mono o (j - i) (trainLoop o i s)
  · intro i hpos hreset
    rw [trainLoop_succ_outer] at hreset ⊢
    by_cases hdone : (trainLoop o i s).model.T
        ≤ (trainLoop o i s).model.current_stage_idx
    · rw [trainStep_complete o _ hdone] at hreset
      omega
    · by_cases hu : (trainLoop o i s).model.current_cart_idx + 1
          < ((trainLoop o i s).model.K : Int)
      · rw [trainStep_unit_eq o _ hdone hu] at hreset
        have : (trainLoop o i s).model.current_cart_idx + 1 = -1 := hreset
        omega
      · rw [trainStep_seal_eq o _ hdone hu]

/-- Witness for claim C7 along the concrete trace from `mEx`: the first
step seals a stage, so the stage cursor increases while the cart cursor
resets. -/
theorem cursor_monotonic_witness :
    (trainLoop oTr 0 ⟨mEx, dEx, dEx⟩).model.current_stage_idx
        ≤ (trainLoop oTr 1 ⟨mEx, dEx, dEx⟩).model.current_stage_idx ∧
      (trainLoop oTr 1 ⟨mEx, dEx, dEx⟩).model.current_stage_idx
        = (trainLoop oTr 0 ⟨mEx, dEx, dEx⟩).model.current_stage_idx + 1 :=
  ⟨(cursor_monotonic oTr ⟨mEx, dEx, dEx⟩).1 0 1 (by decide),
    (cursor_monotonic oTr ⟨mEx, dEx, dEx⟩).2 0 (by decide) (by decide)⟩

/-! ## Detector claims -/

/-- Folding the per-window statistics update preserves the face/non-face
split of the patch count. -/
theorem foldStats_split (l : List (Window × ValidateResult))
    (st0 : DetectionStatisic)
    (h : st0.patch_n = st0.face_patch_n + st0.nonface_patch_n) :
    (l.foldl (fun st e => updateStatisic st e.2.accepted e.2.n) st0).patch_n
      = (l.foldl (fun st e => updateStatisic st e.2.accepted e.2.n) st0).face_patch_n
        + (l.foldl (fun st e => updateStatisic st e.2.accepted e.2.n) st0).nonface_patch_n := by
  induction l generalizing st0 with
  | nil => exact h
  | cons e l ih =>
      refine ih (updateStatisic st0 e.2.accepted e.2.n) ?_
      unfold updateStatisic
      cases e.2.accepted <;> simp <;> omega

/-- Claim C6: after every `Detect` call on consistent incoming counters,
the statistics satisfy `patch_n = face_patch_n + nonface_patch_n`, and the
derived average equals the carts-traversed sum divided by the patch count,
0 when the patch count is 0. -/
theorem detect_statistics_consistent (m : JoinCascador)
    (o : CartOracle (Image × Window)) (p : DetectParam)
    (overlap : Rect → Rect → Bool) (img : Image) (st0 : DetectionStatisic)
    (h : st0.patch_n = st0.face_patch_n + st0.nonface_patch_n) :
    (Detect m o p overlap img st0).2.2.2.2.patch_n
        = (Detect m o p overlap img st0).2.2.2.2.face_patch_n
          + (Detect m o p overlap img st0).2.2.2.2.nonface_patch_n ∧
      (Detect m o p overlap img st0).2.2.2.2.average_cart_n
        = (if (Detect m o p overlap img st0).2.2.2.2.patch_n = 0 then 0
           else (Detect m o p overlap img st0).2.2.2.2.cart_gothrough_n
             / (((Detect m o p overlap img st0).2.2.2.2.patch_n : Int) : ℚ)) := by
  constructor
  · show (((windowsOf p img).map fun w => (w, Validate m o (img, w))).foldl
        (fun st e => updateStatisic st e.2.accepted e.2.n) st0).patch_n
      = (((windowsOf p img).map fun w => (w, Validate m o (img, w))).foldl
        (fun st e => updateStatisic st e.2.accepted e.2.n) st0).face_patch_n
        + (((windowsOf p img).map fun w => (w, Validate m o (img, w))).foldl
          (fun st e => updateStatisic st e.2.accepted e.2.n) st0).nonface_patch_n
    exact foldStats_split _ st0 h
  · rfl

/-- A concrete detection-side cart oracle for the witnesses: each unit
contributes its first stored word and leaves the shape unchanged. -/
def oDet : CartOracle (Image × Window) :=
  { evalUnit := fun u _ shape => (u.content.headD 0, shape),
    evalGlobal := fun _ _ shape => shape }

/-- A concrete 4-by-4 blank image. -/
def imgEx : Image := ⟨4, 4, fun _ _ => 0⟩

/-- A concrete detector configuration: window 2, stride 1, downscale by
one half per pyramid level. -/
def pEx : DetectParam := ⟨2, 1, 2, 1⟩

/-- Witness for claim C6 on a concrete run whose incoming statistics
record carries an indeterminate average. -/
theorem detect_statistics_consistent_witness :
    (DetectionStatisic.construct 7).patch_n
        = (DetectionStatisic.construct 7).face_patch_n
          + (DetectionStatisic.construct 7).nonface_patch_n ∧
      (Detect mExRej oDet pEx (fun _ _ => false) imgEx
          (DetectionStatisic.construct 7)).2.2.2.2.patch_n
        = (Detect mExRej oDet pEx (fun _ _ => false) imgEx
            (DetectionStatisic.construct 7)).2.2.2.2.face_patch_n
          + (Detect mExRej oDet pEx (fun _ _ => false) imgEx
              (DetectionStatisic.construct 7)).2.2.2.2.nonface_patch_n :=
  ⟨by decide,
    (detect_statistics_consistent mExRej oDet pEx (fun _ _ => false) imgEx
      (DetectionStatisic.construct 7) (by decide)).1⟩

/-- Claim C8: `Detect` is deterministic — two calls on the same image
against the same cascade, with the same configured overlap rule and
fixed tie-break, return identical face counts, rectangles, scores,
shapes and statistics. -/
theorem detect_deterministic (m : JoinCascador)
    (o : CartOracle (Image × Window)) (p : DetectParam)
    (overlap : Rect → Rect → Bool) (img1 img2 : Image)
    (st0 : DetectionStatisic) (h : img1 = img2) :
    Detect m o p overlap img1 st0 = Detect m o p overlap img2 st0 := by
  rw [h]

/-- Witness for claim C8 at a concrete image and cascade. -/
theorem detect_deterministic_witness :
    imgEx = imgEx ∧
      Detect mExRej oDet pEx (fun _ _ => false) imgEx
          (DetectionStatisic.construct 0)
        = Detect mExRej oDet pEx (fun _ _ => false) imgEx
            (DetectionStatisic.construct 0) :=
  ⟨rfl, detect_deterministic mExRej oDet pEx (fun _ _ => false) imgEx imgEx
    (DetectionStatisic.construct 0) rfl⟩

/-! ## Constructor claim -/

/-- Counterexample to claim C10: a default-constructed statistics record
whose indeterminate member happens to hold 1 has `average_cart_n = 1 ≠ 0`
even though its patch count is 0 — the constructor's initializer list does
not define the derived average. -/
theorem construct_average_indeterminate :
    (DetectionStatisic.construct 1).patch_n = 0 ∧
      (DetectionStatisic.construct 1).average_cart_n ≠ 0 :=
  ⟨rfl, fun h => one_ne_zero h⟩

/-- Claim C10 (amended): the default constructor initializes `patch_n`,
`face_patch_n`, `nonface_patch_n` and `cart_gothrough_n` to zero, while
`average_cart_n` is absent from the initializer list and keeps whatever
indeterminate value the member held. -/
theorem construct_fields (q : ℚ) :
    (DetectionStatisic.construct q).patch_n = 0 ∧
      (DetectionStatisic.construct q).face_patch_n = 0 ∧
      (DetectionStatisic.construct q).nonface_patch_n = 0 ∧
      (DetectionStatisic.construct q).cart_gothrough_n = 0 ∧
      (DetectionStatisic.construct q).average_cart_n = q :=
  ⟨rfl, rfl, rfl, rfl, rfl⟩

end JDA
